import Mathlib

/- Verification development for the rcpy copy engine (src/copy.rs and
src/utils.rs). The Rust code is shallowly embedded: paths are lists of
components, the filesystem content under the source root is a finite tree,
and every fallible OS interaction (read_dir, metadata, canonicalize,
create_dir_all, copy) is an oracle supplied by an explicit environment.
Each run returns the computed CopyStats together with a trace of the
actions it performed; progress-bar increments are recorded in the trace,
tagged with the destination path of the entry being processed, so that
counting claims about the progress counter can be stated per entry.
The rayon par_iter fan-out over files is modelled by running the file
tasks in an arbitrary schedule (a caller-chosen ordering of the file
list); theorems quantify over that schedule. -/

/-- A filesystem path, as a list of components. Absolute paths are rooted
lists; a relative path is resolved against the working directory held in
the environment, mirroring how the OS resolves a relative Rust Path. -/
abbrev FPath := List String

/-- Result of an fs metadata call: the file-type bit that copied_single
inspects and the permission bits that copy_permissions propagates. -/
structure FMeta where
  isFile : Bool
  perms : Nat
  deriving DecidableEq

/-- Oracles for every OS interaction the engine performs. All lookups are
keyed on resolved absolute paths. -/
structure Env where
  cwd : FPath
  metadata : FPath → Option FMeta
  canonical : FPath → Option FPath
  copyOk : FPath → FPath → Bool
  mkdirOk : FPath → Bool
  readDirOk : FPath → Bool
  isDirAt : FPath → Bool

mutual
/-- The filesystem content under the source root: a file or a directory
with an ordered list of children (FsForest). -/
inductive FsTree where
  | file (name : String)
  | dir (name : String) (children : FsForest)

/-- A list of sibling trees; a separate mutual inductive so traversal can
be defined by structural mutual recursion. -/
inductive FsForest where
  | nil
  | cons (head : FsTree) (tail : FsForest)
end

/-- Name of the root node of a tree. -/
def FsTree.name : FsTree → String
  | .file n => n
  | .dir n _ => n

/-- One traversal result, mirroring a walkdir DirEntry: the absolute path
and whether file_type().is_dir() holds. -/
structure Entry where
  path : FPath
  isDir : Bool
  deriving DecidableEq

/-- The CopyStats struct of utils.rs. -/
structure CopyStats where
  files : Nat
  dirs : Nat
  deriving DecidableEq

/-- The CopyOptions struct of utils.rs, plus the source field that
copy.rs reads (create_files uses options.source.join(path)). -/
structure CopyOptions where
  show_files : Bool
  show_dirs : Bool
  recursive : Bool
  dry_run : Bool
  excludes : List String
  source : FPath

/-- One observable action of a run. mkdirAll, copyBytes and setPerms are
the filesystem mutations (each records an attempt, whether or not the
oracle lets it succeed); canonical is the read-only fs::canonicalize call;
inc is a progress-bar increment, tagged with the destination path and the
kind of the entry whose processing performed it. -/
inductive Act where
  | mkdirAll (dest : FPath)
  | setPerms (dest : FPath) (perms : Nat)
  | copyBytes (src dest : FPath)
  | canonical (p : FPath)
  | inc (tag : FPath) (isDir : Bool)
  deriving DecidableEq

/-- Does the action mutate the filesystem. -/
def Act.isMutation : Act → Bool
  | .mkdirAll _ => true
  | .setPerms _ _ => true
  | .copyBytes _ _ => true
  | _ => false

/-- Actions that the directory phase may emit. -/
def Act.isDirKind : Act → Bool
  | .mkdirAll _ => true
  | .setPerms _ _ => true
  | .inc _ b => b
  | _ => false

/-- Actions that the file phase may emit. -/
def Act.isFileKind : Act → Bool
  | .canonical _ => true
  | .copyBytes _ _ => true
  | .setPerms _ _ => true
  | .inc _ b => !b
  | .mkdirAll _ => false

/-- Does any path mentioned by the action contain the given component. -/
def Act.mentionsName (s : String) : Act → Bool
  | .mkdirAll d => d.contains s
  | .setPerms d _ => d.contains s
  | .copyBytes p d => p.contains s || d.contains s
  | .canonical p => p.contains s
  | .inc p _ => p.contains s

/-- Rust u8::to_ascii_lowercase on a char: shift A..Z down by 32. -/
def asciiLower (c : Char) : Char :=
  if 65 ≤ c.toNat ∧ c.toNat ≤ 90 then Char.ofNat (c.toNat + 32) else c

/-- Rust str::eq_ignore_ascii_case. -/
def eqIgnoreAsciiCase (a b : String) : Bool :=
  a.data.map asciiLower == b.data.map asciiLower

/-- Rust str::trim_start_matches with a dot pattern: drop every leading
dot character. -/
def trimStartDots (s : String) : String :=
  String.mk (s.data.dropWhile fun c => c = '.')

/-- The maximal dot-free suffix of a character list (everything after the
last dot, or the whole list when no dot occurs). -/
def afterLastDot (l : List Char) : List Char :=
  (l.reverse.takeWhile fun c => c ≠ '.').reverse

/-- Rust Path::extension on a file name: none when the name is dot-dot,
has no dot, or has its only dot in leading position (the portion before
the final dot is empty); otherwise the portion after the final dot. -/
def rustExtension (name : String) : Option String :=
  if name = ".." then none
  else if name.data.contains '.' then
    if name.data.length = (afterLastDot name.data).length + 1 then none
    else some (String.mk (afterLastDot name.data))
  else none

/-- The last path component, standing for Rust file_name on the walked
entry paths (which always end in a normal component). -/
def lastName (p : FPath) : String :=
  match p.getLast? with
  | some n => n
  | none => ""

/-- The is_excluded predicate of utils.rs: match the entry path's
extension, case-insensitively, against the exclusion set with each
member's leading dots stripped. -/
def is_excluded (entry : Entry) (excludes : List String) : Bool :=
  match rustExtension (lastName entry.path) with
  | some ext => excludes.any fun ex => eqIgnoreAsciiCase (trimStartDots ex) ext
  | none => false

/-- Modelled from the words of the C5 claim, read literally: the substring
after the last dot of the filename, whenever the filename contains a dot. -/
def specExtensionLiteral (name : String) : Option String :=
  if name.data.contains '.' then some (String.mk (afterLastDot name.data)) else none

/-- The exclusion predicate as the C5 claim literally states it. -/
def specExcludedLiteral (name : String) (excludes : List String) : Bool :=
  match specExtensionLiteral name with
  | some ext => excludes.any fun ex => eqIgnoreAsciiCase (trimStartDots ex) ext
  | none => false

/-- The amended notion of extension: as the literal one, except that a
name whose portion before its last dot is empty (a dotfile such as .psd)
and the name dot-dot have no extension. -/
def specExtensionAmended (name : String) : Option String :=
  match specExtensionLiteral name with
  | none => none
  | some ext =>
    if name = ".." then none
    else if name.data.length = ext.data.length + 1 then none
    else some ext

/-- The exclusion predicate as amended: match on the amended extension. -/
def specExcludedAmended (name : String) (excludes : List String) : Bool :=
  match specExtensionAmended name with
  | some ext => excludes.any fun ex => eqIgnoreAsciiCase (trimStartDots ex) ext
  | none => false

/-- Remaining depth after descending one level (walkdir max_depth). -/
def decDepth : Option Nat → Option Nat
  | none => none
  | some n => some (n - 1)

mutual
/-- The walkdir traversal: yield the node itself first, then its subtree
in order. A directory is listed only when the remaining depth allows
descending; an unreadable directory that must be listed fails the whole
walk, mirroring collect over Result in copy.rs. -/
def walkNode (env : Env) (src : FPath) (depth : Option Nat) (rel : FPath) :
    FsTree → Except FPath (List Entry)
  | .file _ => .ok [⟨src ++ rel, false⟩]
  | .dir _ cs =>
    if depth = some 0 then .ok [⟨src ++ rel, true⟩]
    else if env.readDirOk (src ++ rel) then
      match walkForest env src (decDepth depth) rel cs with
      | .ok rest => .ok (⟨src ++ rel, true⟩ :: rest)
      | .error e => .error e
    else .error (src ++ rel)

/-- Walk each sibling in order, concatenating results and propagating the
first failure. -/
def walkForest (env : Env) (src : FPath) (depth : Option Nat) (rel : FPath) :
    FsForest → Except FPath (List Entry)
  | .nil => .ok []
  | .cons c cs =>
    match walkNode env src depth (rel ++ [c.name]) c with
    | .error e => .error e
    | .ok es =>
      match walkForest env src depth rel cs with
      | .error e => .error e
      | .ok es2 => .ok (es ++ es2)
end

/-- Rust strip_prefix(src) on a walked entry path, which is always an
extension of src: drop the source-root components. -/
def relOf (src p : FPath) : FPath := p.drop src.length

/-- The copy_permissions helper of copy.rs: read the metadata of the
given path; on success attempt set_permissions on the destination (a
set_permissions failure is only logged, so the attempt is the recorded
action); a metadata failure silently skips the permission write. -/
def copy_permissions (env : Env) (path dest_path : FPath) : List Act :=
  match env.metadata path with
  | some m => [.setPerms dest_path m.perms]
  | none => []

/-- The create_directories function of copy.rs, taking the relative path
of the directory entry. Dry-run only increments progress. Otherwise
create_dir_all the destination; on failure the question-mark operator
returns early, so neither the permission copy nor the progress increment
happens. On success, permissions are read from the relative path itself
(which the OS resolves against the working directory, not the source
root) and written to the destination. -/
def create_directories (env : Env) (path dst : FPath) (options : CopyOptions) :
    List Act :=
  let dest_path := dst ++ path
  if options.dry_run then [.inc dest_path true]
  else if env.mkdirOk dest_path then
    .mkdirAll dest_path ::
      (copy_permissions env (env.cwd ++ path) dest_path ++ [.inc dest_path true])
  else [.mkdirAll dest_path]

/-- The create_files function of copy.rs, taking the relative path of the
file entry. fs::canonicalize of source.join(path) runs first; its failure
returns early through the question-mark operator, before the progress
increment. Dry-run then only increments. Otherwise copy the bytes; on
copy success also propagate permissions from the canonicalized source;
either way increment progress. -/
def create_files (env : Env) (path dst : FPath) (options : CopyOptions) :
    List Act :=
  let src_path := options.source ++ path
  let dest_path := dst ++ path
  match env.canonical src_path with
  | none => [.canonical src_path]
  | some real_path =>
    if options.dry_run then [.canonical src_path, .inc dest_path false]
    else if env.copyOk real_path dest_path then
      .canonical src_path :: .copyBytes real_path dest_path ::
        (copy_permissions env real_path dest_path ++ [.inc dest_path false])
    else [.canonical src_path, .copyBytes real_path dest_path, .inc dest_path false]

/-- The body of the per-file closure shared by copy_parallel and
copy_single_threaded: an excluded entry only increments progress,
otherwise create_files runs on its stripped relative path (a create_files
error is logged by the caller and processing continues). -/
def fileTask (env : Env) (src dst : FPath) (options : CopyOptions) (e : Entry) :
    List Act :=
  if is_excluded e options.excludes then [.inc (dst ++ relOf src e.path) false]
  else create_files env (relOf src e.path) dst options

/-- The sequential directory loop: create_directories for every directory
entry in traversal order (errors are logged and the loop continues). -/
def dirPhase (env : Env) (src dst : FPath) (options : CopyOptions)
    (dirs : List Entry) : List Act :=
  (dirs.map fun d => create_directories env (relOf src d.path) dst options).flatten

/-- The file phase: run the file task for every scheduled file entry. The
schedule is the order in which the tasks complete; for the sequential
strategy it is the traversal order, for the rayon fan-out it is an
arbitrary permutation of the file list. -/
def filePhase (env : Env) (src dst : FPath) (options : CopyOptions)
    (sched : List Entry) : List Act :=
  (sched.map (fileTask env src dst options)).flatten

/-- The get_copy_stats function of copy.rs: count the file entries that
are not excluded, and all directory entries. -/
def get_copy_stats (files dirs : List Entry) (options : CopyOptions) : CopyStats :=
  { files := (files.filter fun e => !is_excluded e options.excludes).length,
    dirs := dirs.length }

/-- The copy_parallel function of copy.rs: walk (depth 1 unless
recursive), failing the whole run on a traversal error before anything
else happens; partition entries into directories and files; run the
sequential directory loop; fan the file tasks out (modelled by the given
schedule); return get_copy_stats over the partitioned lists. -/
def copy_parallel (env : Env) (t : FsTree) (src dst : FPath)
    (options : CopyOptions) (sched : List Entry) :
    Except FPath CopyStats × List Act :=
  match walkNode env src (if options.recursive then none else some 1) [] t with
  | .error e => (.error e, [])
  | .ok entries =>
    let p := entries.partition (·.isDir)
    (.ok (get_copy_stats p.2 p.1 options),
      dirPhase env src dst options p.1 ++ filePhase env src dst options sched)

/-- The copy_single_threaded function of copy.rs: identical pipeline, but
the file tasks run sequentially in traversal order. -/
def copy_single_threaded (env : Env) (t : FsTree) (src dst : FPath)
    (options : CopyOptions) : Except FPath CopyStats × List Act :=
  match walkNode env src (if options.recursive then none else some 1) [] t with
  | .error e => (.error e, [])
  | .ok entries =>
    let p := entries.partition (·.isDir)
    (.ok (get_copy_stats p.2 p.1 options),
      dirPhase env src dst options p.1 ++ filePhase env src dst options p.2)

/-- Outcome of copied_single: either the process exited with a code, or
the function returned a boolean. -/
inductive SingleResult where
  | exited (code : Nat)
  | ret (b : Bool)
  deriving DecidableEq

/-- The copied_single function of copy.rs: on a metadata failure the
process exits with code 1. When the source is a regular file, copy it
(into dst joined with the filename when dst is a directory, else to dst
verbatim, and only simulate under dry-run) and return true — the result
of fs::copy is only printed, never consulted. Otherwise return false. -/
def copied_single (env : Env) (src dst : FPath) (dry_run : Bool) :
    SingleResult × List Act :=
  match env.metadata src with
  | none => (.exited 1, [])
  | some m =>
    if m.isFile then
      if env.isDirAt dst then
        if dry_run then (.ret true, [])
        else (.ret true, [.copyBytes src (dst ++ [lastName src])])
      else
        if dry_run then (.ret true, [])
        else (.ret true, [.copyBytes src dst])
    else (.ret false, [])

/-- Number of occurrences of an action in a trace. -/
def countAct (a : Act) : List Act → Nat
  | [] => 0
  | b :: tr => (if b = a then 1 else 0) + countAct a tr

/-- Whether the file task for an entry reaches its progress increment:
it does when the entry is excluded, or when canonicalizing its source
path succeeds; a canonicalize failure returns before the increment. -/
def incEmitted (env : Env) (src : FPath) (options : CopyOptions) (e : Entry) : Bool :=
  is_excluded e options.excludes || (env.canonical (options.source ++ relOf src e.path)).isSome

/-- Destinations of the directory-creation attempts in a trace. -/
def mkdirTargets (tr : List Act) : List FPath :=
  tr.filterMap fun a => match a with | .mkdirAll d => some d | _ => none

/-- Destinations of the byte-copy attempts in a trace. -/
def copyDests (tr : List Act) : List FPath :=
  tr.filterMap fun a => match a with | .copyBytes _ d => some d | _ => none

/-- Scenario A source tree: a.txt, b.psd and sub containing c.txt. -/
def treeA : FsTree :=
  .dir ("") (.cons (.file ("a.txt")) (.cons (.file ("b.psd"))
    (.cons (.dir ("sub") (.cons (.file ("c.txt")) .nil)) .nil)))

/-- Scenario A source root. -/
def srcA : FPath := ["src"]

/-- Scenario A destination root. -/
def dstA : FPath := ["dst"]

/-- A fully cooperative environment whose working directory is the source
root, so even the cwd-relative metadata reads of create_directories land
on the source tree; every metadata read reports permission bits 420. -/
def envA : Env :=
  { cwd := ["src"],
    metadata := fun _ => some ⟨false, 420⟩,
    canonical := fun p => some p,
    copyOk := fun _ _ => true,
    mkdirOk := fun _ => true,
    readDirOk := fun _ => true,
    isDirAt := fun _ => false }

/-- Scenario A options: recursive, not dry-run, excluding psd. -/
def optsA : CopyOptions :=
  { show_files := false, show_dirs := false, recursive := true,
    dry_run := false, excludes := ["psd"], source := ["src"] }

/-- The entries the Scenario A walk discovers, in traversal order. -/
def entriesA : List Entry :=
  [⟨["src"], true⟩, ⟨["src", "a.txt"], false⟩, ⟨["src", "b.psd"], false⟩,
   ⟨["src", "sub"], true⟩, ⟨["src", "sub", "c.txt"], false⟩]

/-- The Scenario A file list in traversal order, used as a schedule. -/
def schedA : List Entry :=
  [⟨["src", "a.txt"], false⟩, ⟨["src", "b.psd"], false⟩,
   ⟨["src", "sub", "c.txt"], false⟩]
/-- Environment for the C2 evaluation: the working directory is not the
source root, the source subdirectory's metadata is available at its real
absolute path, and nothing else has metadata. -/
def envC2 : Env :=
  { cwd := ["work"],
    metadata := fun p => if p = ["src", "sub"] then some ⟨false, 488⟩ else none,
    canonical := fun p => some p,
    copyOk := fun _ _ => true,
    mkdirOk := fun _ => true,
    readDirOk := fun _ => true,
    isDirAt := fun _ => false }

/-- Environment in which every fs::canonicalize call fails. -/
def envC3 : Env :=
  { envA with canonical := fun _ => none }

/-- Environment in which no directory can be read. -/
def envC8 : Env :=
  { envA with readDirOk := fun _ => false }

/-- Counting distributes over trace concatenation. -/
theorem countAct_append (a : Act) (l1 l2 : List Act) :
    countAct a (l1 ++ l2) = countAct a l1 + countAct a l2 := by
  induction l1 with
  | nil => simp [countAct]
  | cons b t ih => simp [countAct, ih]; omega

/-- copy_permissions never increments the progress bar. -/
theorem countAct_copy_permissions (env : Env) (path dest : FPath) (tag : FPath)
    (b : Bool) : countAct (Act.inc tag b) (copy_permissions env path dest) = 0 := by
  unfold copy_permissions
  cases env.metadata path <;> simp [countAct]

/-- create_directories never emits a file-tagged progress increment. -/
theorem countAct_create_directories (env : Env) (path dst : FPath)
    (options : CopyOptions) (tag : FPath) :
    countAct (Act.inc tag false) (create_directories env path dst options) = 0 := by
  unfold create_directories
  cases hd : options.dry_run <;> cases hm : env.mkdirOk (dst ++ path) <;>
    simp [countAct, countAct_append, countAct_copy_permissions, hd, hm]

/-- The directory phase never emits a file-tagged progress increment. -/
theorem countAct_dirPhase (env : Env) (src dst : FPath) (options : CopyOptions)
    (dirs : List Entry) (tag : FPath) :
    countAct (Act.inc tag false) (dirPhase env src dst options dirs) = 0 := by
  induction dirs with
  | nil => simp [dirPhase, countAct]
  | cons d t ih =>
    simp [dirPhase, countAct_append, countAct_create_directories] at *
    exact ih

/-- A single file task emits exactly one progress increment, tagged with
its own destination path, exactly when the task is excluded or its
canonicalize call succeeds; it emits no other increment. -/
theorem countAct_fileTask (env : Env) (src dst : FPath) (options : CopyOptions)
    (e : Entry) (tag : FPath) :
    countAct (Act.inc tag false) (fileTask env src dst options e) =
      if tag = dst ++ relOf src e.path ∧ incEmitted env src options e = true
      then 1 else 0 := by
  unfold fileTask incEmitted create_files
  by_cases ht : tag = dst ++ relOf src e.path
  · subst ht
    cases hx : is_excluded e options.excludes <;>
      cases hc : env.canonical (options.source ++ relOf src e.path) <;>
        cases hd : options.dry_run <;>
          simp [countAct, countAct_append, countAct_copy_permissions, hx, hc, hd]
    cases hk : env.copyOk _ (dst ++ relOf src e.path) <;>
      simp [countAct, countAct_append, countAct_copy_permissions]
  · have ht2 : ¬dst ++ relOf src e.path = tag := fun h => ht h.symm
    cases hx : is_excluded e options.excludes <;>
      cases hc : env.canonical (options.source ++ relOf src e.path) <;>
        cases hd : options.dry_run <;>
          simp [countAct, countAct_append, countAct_copy_permissions, hx, hc, hd, ht, ht2]
    cases hk : env.copyOk _ (dst ++ relOf src e.path) <;>
      simp [countAct, countAct_append, countAct_copy_permissions, ht2]

/-- No file task in a schedule whose destinations all differ from the tag
emits an increment with that tag. -/
theorem countAct_filePhase_zero (env : Env) (src dst : FPath)
    (options : CopyOptions) (sched : List Entry) (tag : FPath)
    (h : ∀ f ∈ sched, tag ≠ dst ++ relOf src f.path) :
    countAct (Act.inc tag false) (filePhase env src dst options sched) = 0 := by
  induction sched with
  | nil => simp [filePhase, countAct]
  | cons f t ih =>
    have hf : tag ≠ dst ++ relOf src f.path := h f (by simp)
    have ht : ∀ g ∈ t, tag ≠ dst ++ relOf src g.path := fun g hg => h g (by simp [hg])
    simp [filePhase, countAct_append, countAct_fileTask, hf] at *
    exact ih ht

/-- In a schedule whose entries have pairwise distinct destination paths,
the increment tagged with a scheduled entry's destination occurs exactly
once when that entry's task reaches its increment, and not at all when
its canonicalize call fails. -/
theorem countAct_filePhase (env : Env) (src dst : FPath) (options : CopyOptions)
    (sched : List Entry) (e : Entry) (hmem : e ∈ sched)
    (hnd : (sched.map fun f => dst ++ relOf src f.path).Nodup) :
    countAct (Act.inc (dst ++ relOf src e.path) false)
        (filePhase env src dst options sched) =
      if incEmitted env src options e = true then 1 else 0 := by
  induction sched with
  | nil => cases hmem
  | cons f t ih =>
    have hnd2 := List.nodup_cons.mp hnd
    rcases List.mem_cons.mp hmem with rfl | hmem2
    · have hzero : countAct (Act.inc (dst ++ relOf src e.path) false)
          (filePhase env src dst options t) = 0 := by
        refine countAct_filePhase_zero env src dst options t _ (fun g hg hgeq => ?_)
        apply hnd2.1
        show dst ++ relOf src e.path ∈ List.map (fun f => dst ++ relOf src f.path) t
        rw [hgeq]
        exact List.mem_map_of_mem (fun f => dst ++ relOf src f.path) hg
      simp [filePhase, countAct_append, countAct_fileTask, hzero] at *
    · have hne : ¬(dst ++ relOf src e.path = dst ++ relOf src f.path) := by
        intro hEq
        apply hnd2.1
        show dst ++ relOf src f.path ∈ List.map (fun f => dst ++ relOf src f.path) t
        rw [← hEq]
        exact List.mem_map_of_mem (fun f => dst ++ relOf src f.path) hmem2
      have := ih hmem2 hnd2.2
      simp [filePhase, countAct_append, countAct_fileTask, hne] at *
      exact this

/-- Membership in a list gives a sublist of the concatenated images. -/
theorem sublist_flatten_of_mem {α β : Type} (f : α → List β) {e : α} {l : List α}
    (h : e ∈ l) : List.Sublist (f e) ((l.map f).flatten) := by
  induction l with
  | nil => cases h
  | cons x t ih =>
    rcases List.mem_cons.mp h with rfl | h2
    · simp only [List.map_cons, List.flatten_cons]
      exact List.sublist_append_left (f e) ((t.map f).flatten)
    · simp only [List.map_cons, List.flatten_cons]
      exact (ih h2).trans (List.sublist_append_right (f x) ((t.map f).flatten))

/-- Every action of create_directories is of directory-phase kind. -/
theorem create_directories_all_dirKind (env : Env) (path dst : FPath)
    (options : CopyOptions) :
    (create_directories env path dst options).all Act.isDirKind = true := by
  unfold create_directories copy_permissions
  cases hd : options.dry_run <;> cases hm : env.mkdirOk (dst ++ path) <;>
    cases hmeta : env.metadata (env.cwd ++ path) <;>
      simp [Act.isDirKind, hd, hm, hmeta]

/-- Every action of the directory phase is of directory-phase kind. -/
theorem dirPhase_all_dirKind (env : Env) (src dst : FPath) (options : CopyOptions)
    (dirs : List Entry) :
    (dirPhase env src dst options dirs).all Act.isDirKind = true := by
  induction dirs with
  | nil => simp [dirPhase]
  | cons d t ih =>
    simp [dirPhase, List.all_append, create_directories_all_dirKind] at *
    exact ih

/-- Every action of a file task is of file-phase kind. -/
theorem fileTask_all_fileKind (env : Env) (src dst : FPath) (options : CopyOptions)
    (e : Entry) : (fileTask env src dst options e).all Act.isFileKind = true := by
  unfold fileTask create_files copy_permissions
  cases hx : is_excluded e options.excludes <;>
    cases hc : env.canonical (options.source ++ relOf src e.path) <;>
      cases hd : options.dry_run <;>
        simp [Act.isFileKind, hx, hc, hd]
  cases hk : env.copyOk _ (dst ++ relOf src e.path) <;>
    cases hmeta : env.metadata _ <;> simp [Act.isFileKind, hk, hmeta]

/-- Every action of the file phase is of file-phase kind. -/
theorem filePhase_all_fileKind (env : Env) (src dst : FPath) (options : CopyOptions)
    (sched : List Entry) :
    (filePhase env src dst options sched).all Act.isFileKind = true := by
  induction sched with
  | nil => simp [filePhase]
  | cons f t ih =>
    simp [filePhase, List.all_append, fileTask_all_fileKind] at *
    exact ih

/-- Under dry-run, create_directories performs no mutation. -/
theorem create_directories_dry (env : Env) (path dst : FPath)
    (options : CopyOptions) (h : options.dry_run = true) :
    (create_directories env path dst options).all (fun a => !a.isMutation) = true := by
  simp [create_directories, h, Act.isMutation]

/-- Under dry-run, a file task performs no mutation. -/
theorem fileTask_dry (env : Env) (src dst : FPath) (options : CopyOptions)
    (e : Entry) (h : options.dry_run = true) :
    (fileTask env src dst options e).all (fun a => !a.isMutation) = true := by
  unfold fileTask create_files
  cases hx : is_excluded e options.excludes <;>
    cases hc : env.canonical (options.source ++ relOf src e.path) <;>
      simp [Act.isMutation, hx, hc, h]

/-- Under dry-run, the directory phase performs no mutation. -/
theorem dirPhase_dry (env : Env) (src dst : FPath) (options : CopyOptions)
    (dirs : List Entry) (h : options.dry_run = true) :
    (dirPhase env src dst options dirs).all (fun a => !a.isMutation) = true := by
  induction dirs with
  | nil => simp [dirPhase]
  | cons d t ih =>
    simp [dirPhase, List.all_append, create_directories_dry _ _ _ _ h] at *
    exact ih

/-- Under dry-run, the file phase performs no mutation. -/
theorem filePhase_dry (env : Env) (src dst : FPath) (options : CopyOptions)
    (sched : List Entry) (h : options.dry_run = true) :
    (filePhase env src dst options sched).all (fun a => !a.isMutation) = true := by
  induction sched with
  | nil => simp [filePhase]
  | cons f t ih =>
    simp [filePhase, List.all_append, fileTask_dry _ _ _ _ _ h] at *
    exact ih

/-- The code's extension computation agrees with the amended
specification of the extension. -/
theorem rustExtension_eq_amended (name : String) :
    rustExtension name = specExtensionAmended name := by
  unfold rustExtension specExtensionAmended specExtensionLiteral
  by_cases h2 : name = ".."
  · subst h2
    simp
  · by_cases hc : name.data.contains '.' = true
    · rw [if_neg h2, if_pos hc, if_pos hc]
      simp [h2]
    · rw [if_neg h2, if_neg hc, if_neg hc]

/-- The Scenario A walk discovers exactly the five entries, root first. -/
theorem walkA : walkNode envA srcA none [] treeA = .ok entriesA := rfl

/-- Claim C5, counterexample: with exclusion set psd, the literal reading
of the claim (substring after the last dot of the filename) excludes a
file named .psd, but the code does not, since Rust Path::extension treats
a leading-dot-only name as having no extension. -/
theorem c5_counterexample :
    is_excluded ⟨["src", ".psd"], false⟩ ["psd"] = false ∧
      specExcludedLiteral (".psd") ["psd"] = true := by
  constructor <;> decide

/-- Claim C5 as amended: the exclusion predicate is pure and returns true
for an entry iff the substring after the last dot of its filename —
provided the portion of the filename before that last dot is nonempty and
the filename is not dot-dot, so dotfiles have no extension — equals,
ASCII-case-insensitively, some member of the exclusion set with that
member's own leading dot characters stripped; a file without such an
extension is never excluded. -/
theorem c5_theorem (p : FPath) (b : Bool) (excludes : List String) :
    is_excluded ⟨p, b⟩ excludes = specExcludedAmended (lastName p) excludes := by
  unfold is_excluded specExcludedAmended
  rw [rustExtension_eq_amended]

/-- Claim C6: for identical inputs, the sequential strategy and the
concurrent fan-out strategy (under every completion schedule) return
equal final CopyStats, both in the success and in the error case. -/
theorem c6_theorem (env : Env) (t : FsTree) (src dst : FPath)
    (options : CopyOptions) (sched : List Entry) :
    (copy_single_threaded env t src dst options).1 =
      (copy_parallel env t src dst options sched).1 := by
  cases h : walkNode env src (if options.recursive then none else some 1) [] t <;>
    simp [copy_single_threaded, copy_parallel, h]

/-- Claim C7: with dry_run set, a batch run (either strategy) performs no
filesystem mutation — no directory creation, no byte copy, no permission
write — and returns the same CopyStats as the non-dry-run invocation on
the same input. -/
theorem c7_theorem (env : Env) (t : FsTree) (src dst : FPath)
    (options : CopyOptions) (sched : List Entry) :
    ((copy_parallel env t src dst { options with dry_run := true } sched).1 =
      (copy_parallel env t src dst { options with dry_run := false } sched).1)
    ∧ ((copy_parallel env t src dst { options with dry_run := true } sched).2.all
        (fun a => !a.isMutation) = true)
    ∧ ((copy_single_threaded env t src dst { options with dry_run := true }).1 =
        (copy_single_threaded env t src dst { options with dry_run := false }).1)
    ∧ ((copy_single_threaded env t src dst { options with dry_run := true }).2.all
        (fun a => !a.isMutation) = true) := by
  cases h : walkNode env src (if options.recursive then none else some 1) [] t with
  | error e =>
    refine ⟨?_, ?_, ?_, ?_⟩ <;> simp [copy_parallel, copy_single_threaded, h]
  | ok entries =>
    refine ⟨?_, ?_, ?_, ?_⟩ <;>
      simp [copy_parallel, copy_single_threaded, h, get_copy_stats,
        List.all_append, dirPhase_dry, filePhase_dry]

/-- Claim C8: when the traversal fails, the whole batch operation returns
that error and the trace is empty — no directory creation, no file copy,
no progress increment, for either strategy. -/
theorem c8_theorem (env : Env) (t : FsTree) (src dst : FPath)
    (options : CopyOptions) (sched : List Entry) (e : FPath)
    (hwalk : walkNode env src (if options.recursive then none else some 1) [] t =
      .error e) :
    copy_parallel env t src dst options sched = (.error e, [])
    ∧ copy_single_threaded env t src dst options = (.error e, []) := by
  constructor <;> simp [copy_parallel, copy_single_threaded, hwalk]

/-- Witness for C8: in an environment in which the source root cannot be
read, Scenario A fails with that path as the error and an empty trace. -/
theorem c8_witness :
    copy_parallel envC8 treeA srcA dstA optsA schedA = (.error ["src"], [])
    ∧ copy_single_threaded envC8 treeA srcA dstA optsA = (.error ["src"], []) :=
  c8_theorem envC8 treeA srcA dstA optsA schedA ["src"] rfl

/-- Claim C10: copied_single exits the process with code 1 exactly when
the source metadata cannot be read; otherwise it returns true iff that
metadata reports a regular file — in particular it returns true whatever
the outcome of the underlying byte copy, whose result the code only
prints (the model never consults the copy oracle). -/
theorem c10_theorem (env : Env) (src dst : FPath) (dry : Bool) :
    (copied_single env src dst dry).1 =
      (match env.metadata src with
       | none => SingleResult.exited 1
       | some m => SingleResult.ret m.isFile) := by
  cases h : env.metadata src with
  | none => simp [copied_single, h]
  | some m =>
    cases hf : m.isFile <;> cases hd : env.isDirAt dst <;> cases dry <;>
      simp [copied_single, h, hf, hd]

/-- Claim C9: in every batch run, under either strategy and every fan-out
schedule, the trace decomposes as the directory phase followed by the
file phase; the directory phase is the sequential loop over the
directory entries (it does not depend on the schedule) and emits only
directory-phase actions, while the file phase emits only file-phase
actions — so every directory entry is processed to completion before any
file entry's processing begins. -/
theorem c9_theorem (env : Env) (t : FsTree) (src dst : FPath)
    (options : CopyOptions) (sched : List Entry) (entries : List Entry)
    (hwalk : walkNode env src (if options.recursive then none else some 1) [] t =
      .ok entries) :
    ((copy_parallel env t src dst options sched).2 =
        dirPhase env src dst options (entries.partition (·.isDir)).1 ++
          filePhase env src dst options sched)
    ∧ ((copy_single_threaded env t src dst options).2 =
        dirPhase env src dst options (entries.partition (·.isDir)).1 ++
          filePhase env src dst options (entries.partition (·.isDir)).2)
    ∧ ((dirPhase env src dst options (entries.partition (·.isDir)).1).all
        Act.isDirKind = true)
    ∧ ((filePhase env src dst options sched).all Act.isFileKind = true) := by
  refine ⟨?_, ?_, dirPhase_all_dirKind _ _ _ _ _, filePhase_all_fileKind _ _ _ _ _⟩ <;>
    simp [copy_parallel, copy_single_threaded, hwalk]

/-- Witness for C9 at Scenario A. -/
theorem c9_witness :
    ((copy_parallel envA treeA srcA dstA optsA schedA).2 =
        dirPhase envA srcA dstA optsA (entriesA.partition (·.isDir)).1 ++
          filePhase envA srcA dstA optsA schedA)
    ∧ ((copy_single_threaded envA treeA srcA dstA optsA).2 =
        dirPhase envA srcA dstA optsA (entriesA.partition (·.isDir)).1 ++
          filePhase envA srcA dstA optsA (entriesA.partition (·.isDir)).2)
    ∧ ((dirPhase envA srcA dstA optsA (entriesA.partition (·.isDir)).1).all
        Act.isDirKind = true)
    ∧ ((filePhase envA srcA dstA optsA schedA).all Act.isFileKind = true) :=
  c9_theorem envA treeA srcA dstA optsA schedA entriesA walkA

/-- Claim C4: per-file copy and permission failures are isolated — for
every environment (whatever the per-file I/O outcomes), the returned
CopyStats counts exactly the discovered non-excluded file entries and all
directory entries, and every scheduled file entry's task still appears in
the trace (the batch continues past failing entries). -/
theorem c4_theorem (env : Env) (t : FsTree) (src dst : FPath)
    (options : CopyOptions) (sched : List Entry) (entries : List Entry)
    (hwalk : walkNode env src (if options.recursive then none else some 1) [] t =
      .ok entries) :
    ((copy_parallel env t src dst options sched).1 =
        .ok ⟨((entries.filter fun e => !e.isDir).filter
                fun e => !is_excluded e options.excludes).length,
             (entries.filter (·.isDir)).length⟩)
    ∧ ∀ e ∈ sched, List.Sublist (fileTask env src dst options e)
        (copy_parallel env t src dst options sched).2 := by
  constructor
  · simp [copy_parallel, hwalk, get_copy_stats, List.partition_eq_filter_filter]
  · intro e hmem
    have h1 : List.Sublist (fileTask env src dst options e)
        (filePhase env src dst options sched) :=
      sublist_flatten_of_mem (fileTask env src dst options) hmem
    have h2 : List.Sublist (filePhase env src dst options sched)
        (copy_parallel env t src dst options sched).2 := by
      simp only [copy_parallel, hwalk]
      exact List.sublist_append_right _ _
    exact h1.trans h2

/-- Witness for C4 at Scenario A with the a.txt entry. -/
theorem c4_witness :
    ((copy_parallel envA treeA srcA dstA optsA schedA).1 = .ok ⟨2, 2⟩)
    ∧ List.Sublist (fileTask envA srcA dstA optsA ⟨["src", "a.txt"], false⟩)
        (copy_parallel envA treeA srcA dstA optsA schedA).2 :=
  ⟨(c4_theorem envA treeA srcA dstA optsA schedA entriesA walkA).1,
   (c4_theorem envA treeA srcA dstA optsA schedA entriesA walkA).2
     ⟨["src", "a.txt"], false⟩ (by decide)⟩

/-- Claim C3, counterexample: a discovered, non-excluded file entry whose
fs::canonicalize call fails receives no progress increment at all — the
question-mark operator in create_files returns before pb.inc — refuting
the claim that the counter is incremented exactly once per discovered
file entry whether it is excluded, copied, or fails at any step. -/
theorem c3_counterexample :
    ((⟨["src", "a.txt"], false⟩ : Entry) ∈ schedA)
    ∧ is_excluded ⟨["src", "a.txt"], false⟩ optsA.excludes = false
    ∧ countAct (Act.inc ["dst", "a.txt"] false)
        (copy_parallel envC3 treeA srcA dstA optsA schedA).2 = 0 := by
  refine ⟨by decide, by decide, by decide⟩

/-- Claim C3 as amended: in every batch run, under either strategy and
every fan-out schedule that is a permutation of the discovered file list
(with pairwise distinct destination paths), the progress counter is
incremented exactly once for each discovered file entry — whether the
entry is excluded, copied successfully, or fails at the byte-copy or
permission step — except when canonicalizing the entry's source path
fails, in which case that entry's increment is skipped. -/
theorem c3_theorem (env : Env) (t : FsTree) (src dst : FPath)
    (options : CopyOptions) (sched : List Entry) (entries : List Entry) (e : Entry)
    (hwalk : walkNode env src (if options.recursive then none else some 1) [] t =
      .ok entries)
    (hperm : sched.Perm (entries.partition (·.isDir)).2)
    (hnd : ((entries.partition (·.isDir)).2.map
        fun f => dst ++ relOf src f.path).Nodup)
    (hmem : e ∈ (entries.partition (·.isDir)).2) :
    (countAct (Act.inc (dst ++ relOf src e.path) false)
        (copy_parallel env t src dst options sched).2 =
      if incEmitted env src options e = true then 1 else 0)
    ∧ (countAct (Act.inc (dst ++ relOf src e.path) false)
        (copy_single_threaded env t src dst options).2 =
      if incEmitted env src options e = true then 1 else 0) := by
  have hndSched : (sched.map fun f => dst ++ relOf src f.path).Nodup :=
    ((hperm.map fun f => dst ++ relOf src f.path).nodup_iff).mpr hnd
  have hmemSched : e ∈ sched := hperm.mem_iff.mpr hmem
  constructor
  · simp only [copy_parallel, hwalk]
    rw [countAct_append, countAct_dirPhase,
      countAct_filePhase env src dst options sched e hmemSched hndSched]
    omega
  · simp only [copy_single_threaded, hwalk]
    rw [countAct_append, countAct_dirPhase,
      countAct_filePhase env src dst options _ e hmem hnd]
    omega

/-- Witness for C3 at Scenario A with the a.txt entry, whose increment
count is one. -/
theorem c3_witness :
    countAct (Act.inc (dstA ++ relOf srcA ["src", "a.txt"]) false)
        (copy_parallel envA treeA srcA dstA optsA schedA).2 = 1 :=
  ((c3_theorem envA treeA srcA dstA optsA schedA entriesA
      ⟨["src", "a.txt"], false⟩ walkA (List.Perm.refl _) (by decide)
      (by decide)).1).trans (by decide)

/-- Claim C1, counterexample: on Scenario A the engine returns
stats.dirs = 2, not 1 — get_copy_stats counts every directory entry the
walk discovered, and the walk yields the source root itself as a
directory entry. -/
theorem c1_counterexample :
    (copy_parallel envA treeA srcA dstA optsA schedA).1 = .ok ⟨2, 2⟩
    ∧ ¬((⟨2, 2⟩ : CopyStats) = (⟨2, 1⟩ : CopyStats)) :=
  ⟨rfl, by decide⟩

/-- Claim C1 as amended: on Scenario A the engine creates destination
directories dst and dst/sub, copies dst/a.txt and dst/sub/c.txt, touches
b.psd with no mutation, and returns stats of two files and two
directories; in general stats.dirs equals the number of directories
discovered within the configured depth bound including the source root
itself, independent of the exclusion set (the count never reads it). -/
theorem c1_theorem :
    ((copy_parallel envA treeA srcA dstA optsA schedA).1 = .ok ⟨2, 2⟩)
    ∧ (mkdirTargets (copy_parallel envA treeA srcA dstA optsA schedA).2 =
        [["dst"], ["dst", "sub"]])
    ∧ (copyDests (copy_parallel envA treeA srcA dstA optsA schedA).2 =
        [["dst", "a.txt"], ["dst", "sub", "c.txt"]])
    ∧ (((copy_parallel envA treeA srcA dstA optsA schedA).2.filter
          Act.isMutation).all (fun a => !a.mentionsName ("b.psd")) = true)
    ∧ ∀ (env : Env) (t : FsTree) (src dst : FPath) (options : CopyOptions)
        (sched : List Entry) (entries : List Entry) (s : CopyStats),
        walkNode env src (if options.recursive then none else some 1) [] t =
          .ok entries →
        (copy_parallel env t src dst options sched).1 = .ok s →
        s.dirs = (entries.filter (·.isDir)).length := by
  refine ⟨rfl, by decide, by decide, by decide, ?_⟩
  intro env t src dst options sched entries s hwalk hstats
  simp only [copy_parallel, hwalk, Except.ok.injEq] at hstats
  rw [← hstats]
  simp [get_copy_stats, List.partition_eq_filter_filter]

/-- Witness for C1: the general directory-count conjunct instantiated at
Scenario A, whose walk discovers two directory entries (the source root
and sub). -/
theorem c1_witness :
    ((copy_parallel envA treeA srcA dstA optsA schedA).1 = .ok ⟨2, 2⟩)
    ∧ ((⟨2, 2⟩ : CopyStats).dirs = (entriesA.filter (·.isDir)).length) :=
  ⟨c1_theorem.1,
   c1_theorem.2.2.2.2 envA treeA srcA dstA optsA schedA entriesA ⟨2, 2⟩ walkA
     c1_theorem.1⟩

/-- Claim C2 evaluation, exposing the code bug: create_directories passes
the stripped relative path to copy_permissions, so fs::metadata resolves
it against the working directory rather than the source root. With the
working directory elsewhere, the metadata read misses and the created
destination directory dst/sub receives no permission write at all, even
though the source directory src/sub has readable metadata; with the
working directory at the source root the write does happen. -/
theorem c2_code_bug :
    envC2.metadata (srcA ++ ["sub"]) = some ⟨false, 488⟩
    ∧ ((copy_parallel envC2 treeA srcA dstA optsA schedA).2.filter
        (fun a => match a with
          | .setPerms d _ => d == ["dst", "sub"]
          | _ => false)) = []
    ∧ mkdirTargets (copy_parallel envC2 treeA srcA dstA optsA schedA).2 =
        [["dst"], ["dst", "sub"]]
    ∧ ((copy_parallel envA treeA srcA dstA optsA schedA).2.filter
        (fun a => match a with
          | .setPerms d _ => d == ["dst", "sub"]
          | _ => false)) = [.setPerms ["dst", "sub"] 420] :=
  ⟨rfl, by decide, by decide, by decide⟩
